import Mathlib

/-!
Verification of the AI-Test-Gen-Crawler orchestration layer.

This file shallowly embeds the core logic of the repository:
the result cache of analyzer.py, the validation wrapper of
qa_validator.py, the crawl loop of crawler.py, and the per-URL
pipeline of main.py.  External collaborators (the browser fetch
engine, the Supabase page store, the LLM, the filesystem and the
git publisher) appear as abstract functions supplied through
environment records; everything the repository itself computes is
translated directly from the Python source.
-/

namespace TG

/-! ## Result cache (analyzer.py)

The cache stores one entry per key; an entry is a timestamp plus a
payload.  Times are integers (seconds).  CACHE_DURATION models
timedelta(hours=24). -/

def CACHE_DURATION : Int := 24 * 60 * 60

/-- Look up the entry stored for a key (models the cache file for
that key existing and being read). -/
def findEntry {α : Type} (cache : List (String × Int × α)) (key : String) :
    Option (Int × α) :=
  (cache.find? (fun e => e.1 == key)).map (fun e => e.2)

/-- Remove the entry stored for a key (models cache_file.unlink). -/
def eraseEntry {α : Type} (cache : List (String × Int × α)) (key : String) :
    List (String × Int × α) :=
  cache.filter (fun e => e.1 != key)

/-- Translation of analyzer.get_cached_result: a missing entry is a
miss; an entry older than CACHE_DURATION is deleted and reported as a
miss; otherwise the stored payload is returned.  The second component
is the cache as left on disk after the read. -/
def get_cached_result {α : Type} (now : Int) (cache : List (String × Int × α))
    (key : String) : Option α × List (String × Int × α) :=
  match findEntry cache key with
  | none => (none, cache)
  | some (ts, r) =>
    if CACHE_DURATION < now - ts then (none, eraseEntry cache key)
    else (some r, cache)

/-- Translation of analyzer.cache_result: store the payload under the
key with timestamp now, overwriting any previous entry for that key. -/
def cache_result {α : Type} (now : Int) (cache : List (String × Int × α))
    (key : String) (result : α) : List (String × Int × α) :=
  (key, now, result) :: eraseEntry cache key

/-- Translation of analyzer.get_cache_key: the key is a hash of the
concatenation url ++ html.  hashlib.sha256 is an external collaborator
and appears as the hash parameter. -/
def get_cache_key (hash : String → String) (url html : String) : String :=
  hash (url ++ html)

/-! ## Validation wrapper (qa_validator.py)

The ChatOpenAI handle is external; it appears as the invoke
parameter, which either returns the response content or fails. -/

/-- Test case record as used by the orchestrator: main.py only ever
touches the preconditions and edgeCases fields (normalization);
everything else is opaque payload, represented by the title. -/
structure TestCase where
  title : String
  preconditions : Option String
  edgeCases : Option (List String)
deriving DecidableEq

/-- Deterministic rendering of a test case, standing for the external
json.dumps serialization used to build the validation prompt. -/
def renderTestCase (tc : TestCase) : String :=
  tc.title ++ "|" ++ tc.preconditions.getD "" ++ "|" ++
    String.intercalate ";" (tc.edgeCases.getD [])

/-- The prompt text built by qa_validator.py from the test cases and
the POM code (ChatPromptTemplate.format is deterministic in its two
inputs). -/
def validationPrompt (test_cases : List TestCase) (pom_code : String) : String :=
  "Review the following test cases and POM code.\nTest Cases:\n" ++
    String.intercalate "\n" (test_cases.map renderTestCase) ++
    "\nPOM Code:\n" ++ pom_code

/-- Translation of qa_validator.validate_test_cases: invoke the LLM on
the formatted prompt; on success return the response content, on any
exception return the fixed failure string. -/
def validate_test_cases (invoke : String → Except String String)
    (test_cases : List TestCase) (pom_code : String) : String :=
  match invoke (validationPrompt test_cases pom_code) with
  | .ok content => content
  | .error _ => "Validation failed due to an error."

/-! ## Crawl loop (crawler.py)

The browser (crawl4ai AsyncWebCrawler), urllib.parse.urlparse and the
Supabase client are external collaborators, supplied as the fields of
CrawlEnv.  A fetch that raises is identified with a fetch whose result
has success = false: in both cases the loop records the URL as visited
and moves on without storing or link-expanding it. -/

/-- Outcome of crawler.arun for one URL: the success flag, the page
content and the hrefs of the internal links of the result. -/
structure FetchResult where
  success : Bool
  html : String
  title : String
  links : List String

/-- External collaborators of crawl_website: the fetch engine, the
page store query isCrawled, and the netloc component of urlparse. -/
structure CrawlEnv where
  fetch : String → FetchResult
  isCrawled : String → Bool
  netloc : String → String

/-- The link gate of the crawl loop: keep the hrefs whose netloc
equals the start domain and which are not in the visited set (the
visited set already contains the URL being expanded). -/
def newLinks (env : CrawlEnv) (domain : String) (visited : List String)
    (links : List String) : List String :=
  links.filter (fun href => env.netloc href == domain && !(visited.contains href))

/-- The mutable state of the while loop in crawl_website. -/
structure CrawlState where
  toCrawl : List String
  visited : List String
  crawledPages : List String
deriving DecidableEq

/-- One iteration of the while loop of crawl_website, for the popped
URL url and the remaining queue rest. -/
def crawlStep (env : CrawlEnv) (domain url : String)
    (rest visited crawled : List String) : CrawlState :=
  if visited.contains url then ⟨rest, visited, crawled⟩
  else if env.isCrawled url then ⟨rest, url :: visited, crawled⟩
  else if (env.fetch url).success then
    ⟨rest ++ newLinks env domain (url :: visited) (env.fetch url).links,
      url :: visited, crawled ++ [url]⟩
  else ⟨rest, url :: visited, crawled⟩

/-- The while loop of crawl_website, with fuel for termination; a run
that empties the queue within the fuel returns the final state. -/
def crawlLoop (env : CrawlEnv) (domain : String) :
    Nat → CrawlState → Option CrawlState
  | 0, s => if s.toCrawl.isEmpty then some s else none
  | fuel + 1, s =>
    match s.toCrawl with
    | [] => some s
    | url :: rest =>
      crawlLoop env domain fuel (crawlStep env domain url rest s.visited s.crawledPages)

/-- Translation of crawl_website: run the loop from the start URL with
the domain of the start URL and return the crawled page list. -/
def crawl_website (env : CrawlEnv) (start : String) (fuel : Nat) :
    Option (List String) :=
  (crawlLoop env (env.netloc start) fuel ⟨[start], [], []⟩).map
    (fun s => s.crawledPages)

/-! Ghost-instrumented variant of the same loop: it additionally
records the order in which URLs are first discovered (first appended
to the queue, the start URL counting as discovered initially) and the
list of URLs on which a fetch was attempted.  It changes nothing in
the computation and projects onto the plain loop. -/

/-- Keep the first occurrence of every element not already seen. -/
def dedupFirstGo (seen : List String) : List String → List String
  | [] => []
  | a :: l =>
    if seen.contains a then dedupFirstGo seen l
    else a :: dedupFirstGo (a :: seen) l

/-- Keep the first occurrence of every element, in order. -/
def dedupFirst (l : List String) : List String := dedupFirstGo [] l

/-- The elements of l not yet in d, first occurrences only: the newly
discovered URLs when l is appended to the queue. -/
def firstNew (d l : List String) : List String :=
  dedupFirst (l.filter (fun x => !(d.contains x)))

/-- Crawl state extended with the ghost discovery and fetch traces. -/
structure CrawlStateT where
  toCrawl : List String
  visited : List String
  crawled : List String
  discovered : List String
  fetched : List String
deriving DecidableEq

/-- One loop iteration with ghost traces: identical to crawlStep on
the real components; a fetch attempt is recorded whenever the loop
reaches the crawler.arun call. -/
def crawlStepT (env : CrawlEnv) (domain url : String)
    (rest visited crawled discovered fetched : List String) : CrawlStateT :=
  if visited.contains url then ⟨rest, visited, crawled, discovered, fetched⟩
  else if env.isCrawled url then ⟨rest, url :: visited, crawled, discovered, fetched⟩
  else if (env.fetch url).success then
    ⟨rest ++ newLinks env domain (url :: visited) (env.fetch url).links,
      url :: visited, crawled ++ [url],
      discovered ++ firstNew discovered (newLinks env domain (url :: visited) (env.fetch url).links),
      fetched ++ [url]⟩
  else ⟨rest, url :: visited, crawled, discovered, fetched ++ [url]⟩

/-- The instrumented loop. -/
def crawlLoopT (env : CrawlEnv) (domain : String) :
    Nat → CrawlStateT → Option CrawlStateT
  | 0, s => if s.toCrawl.isEmpty then some s else none
  | fuel + 1, s =>
    match s.toCrawl with
    | [] => some s
    | url :: rest =>
      crawlLoopT env domain fuel
        (crawlStepT env domain url rest s.visited s.crawled s.discovered s.fetched)

/-- Initial instrumented state for a start URL. -/
def initT (start : String) : CrawlStateT := ⟨[start], [], [], [start], []⟩

/-- Forget the ghost traces. -/
def projT (s : CrawlStateT) : CrawlState := ⟨s.toCrawl, s.visited, s.crawled⟩

/-- The first-discovery order of a crawl: the ghost discovery trace at
the end of the run. -/
def discoveryOrder (env : CrawlEnv) (start : String) (fuel : Nat) :
    Option (List String) :=
  (crawlLoopT env (env.netloc start) fuel (initT start)).map (fun s => s.discovered)

/-- Final instrumented state of a crawl from a start URL. -/
def crawlFinalT (env : CrawlEnv) (start : String) (fuel : Nat) :
    Option CrawlStateT :=
  crawlLoopT env (env.netloc start) fuel (initT start)

/-- Reachability from the start URL following only links whose domain
equals the domain of the start URL. -/
inductive Reachable (env : CrawlEnv) (start : String) : String → Prop
  | refl : Reachable env start start
  | step {x y : String} : Reachable env start x → y ∈ (env.fetch x).links →
      env.netloc y = env.netloc start → Reachable env start y

/-- Loop invariant of the instrumented crawl, under the assumptions
that the page store reports nothing crawled and every fetch succeeds. -/
structure CrawlInv (env : CrawlEnv) (start : String) (s : CrawlStateT) : Prop where
  visited_iff : ∀ x, x ∈ s.visited ↔ x ∈ s.crawled
  nodup : s.crawled.Nodup
  disc : s.discovered =
    s.crawled ++ dedupFirst (s.toCrawl.filter (fun x => !(s.visited.contains x)))
  queue_reach : ∀ x ∈ s.toCrawl, Reachable env start x
  crawled_reach : ∀ x ∈ s.crawled, Reachable env start x
  closure : ∀ x ∈ s.crawled, ∀ y ∈ (env.fetch x).links,
    env.netloc y = env.netloc start → (y ∈ s.visited ∨ y ∈ s.toCrawl)
  start_mem : start ∈ s.crawled ∨ start ∈ s.toCrawl

/-! ## String helpers for main.py path derivation

Python str.replace replaces every non-overlapping occurrence from the
left; str.strip removes the character from both ends.  Both are
modelled directly on character lists. -/

/-- Whether the first list is an initial segment of the second. -/
def startsWithChars : List Char → List Char → Bool
  | [], _ => true
  | _ :: _, [] => false
  | p :: ps, c :: cs => p == c && startsWithChars ps cs

/-- Replace every non-overlapping occurrence of pat by rep, scanning
left to right (python str.replace; an empty pattern leaves the string
unchanged, which agrees with python for the empty replacement used by
main.py).  The fuel argument only drives the recursion; one unit is
spent per character position and the callers supply the input length,
which always suffices because each step consumes at least one
character. -/
def replaceGo (pat rep : List Char) : Nat → List Char → List Char
  | 0, s => s
  | _ + 1, [] => []
  | fuel + 1, c :: cs =>
    if pat.length != 0 && startsWithChars pat (c :: cs) then
      rep ++ replaceGo pat rep fuel (List.drop (pat.length - 1) cs)
    else
      c :: replaceGo pat rep fuel cs

/-- Python url.replace(pat, rep) on strings. -/
def pyReplace (s pat rep : String) : String :=
  ⟨replaceGo pat.data rep.data s.data.length s.data⟩

/-- Python s.strip of the slash character. -/
def pyStripSlash (s : String) : String :=
  ⟨((s.data.dropWhile (fun c => c == '/')).reverse.dropWhile (fun c => c == '/')).reverse⟩

/-! ## Per-URL pipeline (main.py)

The Supabase client, the analyzer, the generator string assembly, the
LLM, the filesystem and the git publisher are collaborators reached
through the Env record.  The analyzer result is the shape main.py
inspects: a falsy value, a dict carrying an error key, or a dict with
testCases and pomCode. -/

/-- A row of the pages table as returned by get_page_from_db. -/
structure PageRecord where
  url : String
  html : String
  title : String
  origin_id : String
deriving DecidableEq

/-- The shapes of analyze_page results that main.py distinguishes. -/
inductive AnalysisVal where
  | falsy : AnalysisVal
  | errorDict : String → AnalysisVal
  | result : List TestCase → String → AnalysisVal

/-- Environment of process_website.  Except values model calls that
raised; the Supabase client methods catch internally and return
None-like values, hence getPage and getUrlsByOrigin are total. -/
structure Env where
  crawl : CrawlEnv
  repoUrl : String
  getPage : String → Option PageRecord
  getUrlsByOrigin : String → List String
  makedirs : String → Except String Unit
  analyze : String → String → Except String AnalysisVal
  generate_test_code : List TestCase → String → String → Except String String
  llmInvoke : String → Except String String
  writeFeedback : String → String → Except String Unit
  generate_outputs : List TestCase → String → Except String Unit
  integrate : String → List (String × String) → Except String Unit

/-- Step 3 path derivation: strip the start URL from the URL, strip
slashes, default to home for the site root. -/
def pagePath (start url : String) : String :=
  let p := pyStripSlash (pyReplace url start "")
  if p = "" then "home" else p

/-- The safe path: slashes replaced by underscores. -/
def safePath (start url : String) : String :=
  pyReplace (pagePath start url) "/" "_"

/-- Relative path of the page-object file registered for a URL. -/
def pomPath (start url : String) : String :=
  "pages/" ++ pagePath start url ++ ".page.ts"

/-- Relative path of the test file registered for a URL. -/
def testPath (start url : String) : String :=
  "tests/" ++ pagePath start url ++ ".test.ts"

/-- Path of the validation feedback file for a URL. -/
def feedbackPath (outDir start url : String) : String :=
  outDir ++ "/validation_feedback_" ++ safePath start url ++ ".txt"

/-- The feedback written to disk: the placeholder when the feedback
string is falsy. -/
def orDefaultFeedback (s : String) : String :=
  if s = "" then "Validation produced no feedback" else s

/-- Python dict assignment files_to_add[k] = v: update in place if the
key exists, else append. -/
def upsert (m : List (String × String)) (k v : String) : List (String × String) :=
  if m.any (fun e => e.1 == k) then
    m.map (fun e => if e.1 == k then (k, v) else e)
  else m ++ [(k, v)]

/-- The normalization loop of main.py: default preconditions and
edgeCases when missing. -/
def normalizeTestCase (tc : TestCase) : TestCase :=
  { tc with
    preconditions := some (tc.preconditions.getD "No specific preconditions"),
    edgeCases := some (tc.edgeCases.getD []) }

/-- Translation of the per-URL loop body of process_website.  Every
failure path returns the accumulated files map unchanged: the outer
try/except of the loop catches any exception, and the two inner
try/except blocks continue to the next URL. -/
def processUrl (env : Env) (start outDir url : String)
    (s : List (String × String)) : List (String × String) :=
  match env.getPage url with
  | none => s
  | some rec =>
    if rec.html = "" then s
    else
      match env.analyze rec.html url with
      | .error _ => s
      | .ok .falsy => s
      | .ok (.errorDict _) => s
      | .ok (.result tcs pom) =>
        if tcs.isEmpty || pom = "" then s
        else
          match env.generate_test_code (tcs.map normalizeTestCase) pom url with
          | .error _ => s
          | .ok tcode =>
            if tcode = "" then s
            else
              match env.writeFeedback (feedbackPath outDir start url)
                  (orDefaultFeedback (validate_test_cases env.llmInvoke
                    (tcs.map normalizeTestCase) pom)) with
              | .error _ => s
              | .ok _ =>
                let s2 := upsert (upsert s (pomPath start url) pom)
                  (testPath start url) tcode
                match env.generate_outputs (tcs.map normalizeTestCase) outDir with
                | .error _ => s2
                | .ok _ => s2

/-- The for loop over the crawled URLs. -/
def processUrls (env : Env) (start outDir : String) (urls : List String)
    (s : List (String × String)) : List (String × String) :=
  urls.foldl (fun acc u => processUrl env start outDir u acc) s

/-- The output directory derived from the start URL. -/
def outputDirOf (start : String) : String :=
  "outputs/" ++ pyReplace (pyReplace start "https://" "") "/" "_"

/-- Observable outcome of one process_website run: the URL list fed to
the pipeline, the final files map, how many times the publisher was
invoked and with what outcome. -/
structure RunResult where
  pipelineUrls : List String
  files : List (String × String)
  publishCalls : Nat
  publishOutcome : Option (Except String Unit)

/-- Translation of process_website.  The outer Option is the crawl
fuel (none when the crawl loop did not finish); the Except is an
exception escaping process_website itself.  The publish call is inside
a try/except whose handler only logs, so its failure is recorded in
publishOutcome but never propagates. -/
def process_website (env : Env) (start : String) (fuel : Nat) :
    Option (Except String RunResult) :=
  (crawl_website env.crawl start fuel).map (fun crawled =>
    match (if crawled.isEmpty then
             match env.getPage start with
             | none => none
             | some rec => some (env.getUrlsByOrigin rec.origin_id)
           else some crawled) with
    | none => .ok ⟨[], [], 0, none⟩
    | some urls =>
      match env.makedirs (outputDirOf start) with
      | .error e => .error e
      | .ok _ =>
        let files := processUrls env start (outputDirOf start) urls []
        if files.isEmpty then .ok ⟨urls, files, 0, none⟩
        else .ok ⟨urls, files, 1, some (env.integrate env.repoUrl files)⟩)

/-- A URL succeeds through stage 5 when every branch of processUrl
reaches the registration of its two files. -/
def urlSucceeds (env : Env) (start outDir url : String) : Bool :=
  match env.getPage url with
  | none => false
  | some rec =>
    if rec.html = "" then false
    else
      match env.analyze rec.html url with
      | .ok (.result tcs pom) =>
        if tcs.isEmpty || pom = "" then false
        else
          match env.generate_test_code (tcs.map normalizeTestCase) pom url with
          | .ok tcode =>
            if tcode = "" then false
            else
              match env.writeFeedback (feedbackPath outDir start url)
                  (orDefaultFeedback (validate_test_cases env.llmInvoke
                    (tcs.map normalizeTestCase) pom)) with
              | .ok _ => true
              | .error _ => false
          | .error _ => false
      | _ => false

/-! ## Concrete environments used to evaluate the model -/

/-- A sample test case. -/
def tcSample : TestCase := ⟨"t1", some "p", some []⟩

/-- A two-page site: s links to a, both on domain d, nothing stored,
every fetch succeeds. -/
def cenvA : CrawlEnv :=
  { fetch := fun u => ⟨true, "h", "t", if u == "s" then ["a"] else []⟩,
    isCrawled := fun _ => false,
    netloc := fun _ => "d" }

/-- Same site, but the page store already holds a. -/
def cenvC3 : CrawlEnv :=
  { fetch := fun u => ⟨true, "h", "t", if u == "s" then ["a"] else []⟩,
    isCrawled := fun u => u == "a",
    netloc := fun _ => "d" }

/-- A pipeline environment in which every stage succeeds. -/
def envBase : Env :=
  { crawl := cenvA,
    repoUrl := "r",
    getPage := fun u => some ⟨u, "h", "t", "o"⟩,
    getUrlsByOrigin := fun _ => [],
    makedirs := fun _ => .ok (),
    analyze := fun _ _ => .ok (.result [tcSample] "pom"),
    generate_test_code := fun _ _ _ => .ok "code",
    llmInvoke := fun _ => .ok "fb",
    writeFeedback := fun _ _ => .ok (),
    generate_outputs := fun _ _ => .ok (),
    integrate := fun _ _ => .ok () }

/-- Environment for the C3 counterexample: a is already in the page
store and has stored content, and the analyzer returns a falsy value. -/
def envC3 : Env := { envBase with crawl := cenvC3, analyze := fun _ _ => .ok .falsy }

/-- Environment in which the publisher fails. -/
def envC8 : Env := { envBase with integrate := fun _ _ => .error "boom" }

/-- The run result produced by envC8. -/
def runC8 : RunResult :=
  ⟨["s", "a"],
   [("pages/home.page.ts", "pom"), ("tests/home.test.ts", "code"),
    ("pages/a.page.ts", "pom"), ("tests/a.test.ts", "code")],
   1, some (.error "boom")⟩

/-- The run result produced by envBase. -/
def runBase : RunResult :=
  ⟨["s", "a"],
   [("pages/home.page.ts", "pom"), ("tests/home.test.ts", "code"),
    ("pages/a.page.ts", "pom"), ("tests/a.test.ts", "code")],
   1, some (.ok ())⟩

/-- Environment in which creating the output directory fails. -/
def envMkFail : Env := { envBase with makedirs := fun _ => .error "mkfail" }

/-- Environment in which the page store has no record for x. -/
def envC6 : Env :=
  { envBase with getPage := fun u => if u == "x" then none else some ⟨u, "h", "t", "o"⟩ }

/-- Environment in which writing the validation feedback file fails. -/
def envC9 : Env := { envBase with writeFeedback := fun _ _ => .error "efs" }

/-- Environment in which the LLM invocation raises. -/
def envC10 : Env := { envBase with llmInvoke := fun _ => .error "ellm" }

/-! ## Theorems -/

lemma findEntry_cache_result {α : Type} (now : Int)
    (cache : List (String × Int × α)) (key : String) (v : α) :
    findEntry (cache_result now cache key v) key = some (now, v) := by
  simp [findEntry, cache_result, List.find?]

lemma findEntry_eraseEntry {α : Type} (cache : List (String × Int × α))
    (key : String) : findEntry (eraseEntry cache key) key = none := by
  have h : (eraseEntry cache key).find? (fun e => e.1 == key) = none := by
    rw [List.find?_eq_none]
    intro x hx
    have := (List.mem_filter.mp hx).2
    simpa [bne] using this
  simp [findEntry, h]

/-- Claim C4, counterexample: the two pairs ("ab", "c") and ("a", "bc")
differ in both components, yet they produce the same cache key under
any hash (here the identity), because only the concatenation of url
and html enters the hash. -/
theorem c4_cache_key_cex :
    get_cache_key (fun s => s) "ab" "c" = get_cache_key (fun s => s) "a" "bc" ∧
      (("ab", "c") : String × String) ≠ ("a", "bc") := by
  refine ⟨rfl, ?_⟩
  decide

/-- Claim C4, amended: the cache key function is deterministic, and
for a fixed url a change of html changes the key whenever the hash is
injective; distinctness of the pairs alone does not guarantee distinct
keys, since only the concatenation url ++ html is hashed. -/
theorem c4_cache_key_amended (hash : String → String)
    (hinj : Function.Injective hash) (url html1 html2 : String)
    (hne : html1 ≠ html2) :
    get_cache_key hash url html1 = get_cache_key hash url html1 ∧
      get_cache_key hash url html1 ≠ get_cache_key hash url html2 := by
  refine ⟨rfl, fun h => hne ?_⟩
  have h2 : url ++ html1 = url ++ html2 := hinj h
  have h3 : url.data ++ html1.data = url.data ++ html2.data := by
    have := congrArg String.data h2
    simpa [String.data_append] using this
  have h4 : html1.data = html2.data := List.append_cancel_left h3
  cases html1
  cases html2
  exact congrArg String.mk h4

/-- Witness for the amended C4 at the identity hash. -/
theorem c4_cache_key_witness :
    Function.Injective (fun s : String => s) ∧ ("x" : String) ≠ "y" ∧
      (get_cache_key (fun s : String => s) "u" "x" =
          get_cache_key (fun s : String => s) "u" "x" ∧
        get_cache_key (fun s : String => s) "u" "x" ≠
          get_cache_key (fun s : String => s) "u" "y") :=
  ⟨fun _ _ h => h, by decide,
    c4_cache_key_amended (fun s => s) (fun _ _ h => h) "u" "x" "y" (by decide)⟩

/-- Claim C5: a get on a key immediately after a put of a payload
under that key (with no time advance past the TTL) returns that
payload and leaves the store unchanged; a get on a key whose entry is
older than 24 hours returns a miss and deletes the entry as a side
effect of the read. -/
theorem c5_cache_ttl {α : Type} (cache cache2 : List (String × Int × α))
    (key key2 : String) (v r : α) (tput now now2 ts : Int)
    (h1 : now - tput ≤ CACHE_DURATION)
    (h2 : findEntry cache2 key2 = some (ts, r))
    (h3 : CACHE_DURATION < now2 - ts) :
    get_cached_result now (cache_result tput cache key v) key =
        (some v, cache_result tput cache key v) ∧
      get_cached_result now2 cache2 key2 = (none, eraseEntry cache2 key2) ∧
      findEntry (eraseEntry cache2 key2) key2 = none := by
  refine ⟨?_, ?_, findEntry_eraseEntry cache2 key2⟩
  · simp only [get_cached_result, findEntry_cache_result]
    rw [if_neg (by omega)]
  · simp only [get_cached_result, h2]
    rw [if_pos h3]

/-- Witness for C5 on a one-entry store of natural-number payloads. -/
theorem c5_cache_ttl_witness :
    ((0 : Int) - 0 ≤ CACHE_DURATION) ∧
      (findEntry [("k", (0 : Int), (7 : Nat))] "k" = some (0, 7)) ∧
      (CACHE_DURATION < (100000 : Int) - 0) ∧
      (get_cached_result 0 (cache_result 0 ([] : List (String × Int × Nat)) "j" 5) "j" =
          (some 5, cache_result 0 [] "j" 5) ∧
        get_cached_result 100000 [("k", (0 : Int), (7 : Nat))] "k" =
          (none, eraseEntry [("k", (0 : Int), (7 : Nat))] "k") ∧
        findEntry (eraseEntry [("k", (0 : Int), (7 : Nat))] "k") "k" = none) :=
  ⟨by decide, by decide, by decide,
    c5_cache_ttl [] [("k", (0 : Int), (7 : Nat))] "j" "k" 5 7 0 0 100000 0
      (by decide) (by decide) (by decide)⟩

/-- Claim C10: validate_test_cases never raises: when the LLM
invocation fails it returns the fixed string, and an LLM failure alone
never triggers the validation-failure skip branch of the orchestrator:
with the feedback write succeeding, the URL still registers its two
files. -/
theorem c10_validate_total (invoke : String → Except String String)
    (tcs0 : List TestCase) (pom0 e0 : String)
    (env : Env) (start outDir url : String) (s : List (String × String))
    (rec : PageRecord) (tcs : List TestCase) (pom tcode e : String)
    (ha : invoke (validationPrompt tcs0 pom0) = .error e0)
    (hgp : env.getPage url = some rec) (hh : rec.html ≠ "")
    (han : env.analyze rec.html url = .ok (.result tcs pom))
    (htcs : tcs ≠ []) (hpom : pom ≠ "")
    (hgen : env.generate_test_code (tcs.map normalizeTestCase) pom url = .ok tcode)
    (htc : tcode ≠ "")
    (he : env.llmInvoke (validationPrompt (tcs.map normalizeTestCase) pom) = .error e)
    (hwf : env.writeFeedback (feedbackPath outDir start url)
        "Validation failed due to an error." = .ok ()) :
    validate_test_cases invoke tcs0 pom0 = "Validation failed due to an error." ∧
      processUrl env start outDir url s =
        upsert (upsert s (pomPath start url) pom) (testPath start url) tcode := by
  constructor
  · simp [validate_test_cases, ha]
  · have hv : orDefaultFeedback (validate_test_cases env.llmInvoke
        (tcs.map normalizeTestCase) pom) = "Validation failed due to an error." := by
      simp [validate_test_cases, he, orDefaultFeedback]
    cases hgo : env.generate_outputs (tcs.map normalizeTestCase) outDir with
    | error e2 => simp [processUrl, hgp, hh, han, htcs, hpom, hgen, htc, hv, hwf, hgo]
    | ok u => simp [processUrl, hgp, hh, han, htcs, hpom, hgen, htc, hv, hwf, hgo]

/-- Witness for C10 in an environment where the LLM raises. -/
theorem c10_validate_total_witness :
    envC10.llmInvoke (validationPrompt [tcSample] "p0") = .error "ellm" ∧
      envC10.getPage "a" = some ⟨"a", "h", "t", "o"⟩ ∧
      envC10.analyze "h" "a" = .ok (.result [tcSample] "pom") ∧
      envC10.generate_test_code ([tcSample].map normalizeTestCase) "pom" "a" = .ok "code" ∧
      envC10.llmInvoke (validationPrompt ([tcSample].map normalizeTestCase) "pom") =
        .error "ellm" ∧
      envC10.writeFeedback (feedbackPath "o" "s" "a")
        "Validation failed due to an error." = .ok () ∧
      (validate_test_cases envC10.llmInvoke [tcSample] "p0" =
          "Validation failed due to an error." ∧
        processUrl envC10 "s" "o" "a" [] =
          upsert (upsert [] (pomPath "s" "a") "pom") (testPath "s" "a") "code") :=
  ⟨rfl, rfl, rfl, rfl, rfl, rfl,
    c10_validate_total envC10.llmInvoke [tcSample] "p0" "ellm" envC10 "s" "o" "a" []
      ⟨"a", "h", "t", "o"⟩ [tcSample] "pom" "code" "ellm"
      rfl rfl (by decide) rfl (by decide) (by decide) rfl (by decide) rfl rfl⟩

/-- Claim C2, counterexample: while processing s, the link a is
same-domain and unvisited but already present in the queue; the claim
says it is silently dropped, yet the loop appends it again, so the
queue after the iteration holds a twice. -/
theorem c2_enqueue_gate_cex :
    (crawlStep cenvA "d" "s" ["a"] [] []).toCrawl = ["a", "a"] ∧
      cenvA.netloc "a" = "d" ∧ ("a" : String) ∉ (["s"] : List String) :=
  ⟨rfl, rfl, by decide⟩

/-- Claim C2, amended: during an iteration that fetches url, a link is
appended to the tail of the queue iff its domain equals the start
domain and it is not in the visited set (which now includes url);
presence in the queue is not consulted, so an already-queued URL is
appended again; in every other case nothing is appended and no error
is raised. -/
theorem c2_enqueue_gate_amended (env : CrawlEnv) (domain url href : String)
    (rest visited crawled : List String)
    (hnv : visited.contains url = false)
    (hnc : env.isCrawled url = false)
    (hs : (env.fetch url).success = true) :
    (crawlStep env domain url rest visited crawled).toCrawl =
        rest ++ newLinks env domain (url :: visited) (env.fetch url).links ∧
      (href ∈ newLinks env domain (url :: visited) (env.fetch url).links ↔
        href ∈ (env.fetch url).links ∧ env.netloc href = domain ∧
          href ∉ (url :: visited)) := by
  have hnv2 : url ∉ visited := by simpa using hnv
  constructor
  · simp [crawlStep, hnv2, hnc, hs]
  · simp [newLinks, List.mem_filter, and_assoc]

/-- Witness for the amended C2. -/
theorem c2_enqueue_gate_witness :
    (([] : List String).contains "s" = false) ∧ cenvA.isCrawled "s" = false ∧
      (cenvA.fetch "s").success = true ∧
      ((crawlStep cenvA "d" "s" ["q"] [] []).toCrawl =
          ["q"] ++ newLinks cenvA "d" ["s"] (cenvA.fetch "s").links ∧
        ("a" ∈ newLinks cenvA "d" ["s"] (cenvA.fetch "s").links ↔
          "a" ∈ (cenvA.fetch "s").links ∧ cenvA.netloc "a" = "d" ∧
            ("a" : String) ∉ (["s"] : List String))) :=
  ⟨rfl, rfl, rfl, c2_enqueue_gate_amended cenvA "d" "s" "a" ["q"] [] [] rfl rfl rfl⟩

/-- Claim C9: when the validation block fails for a URL (here: the
feedback write raises), the failure is contained, that URL registers
nothing into the artifact map, and the run continues with the
remaining URLs exactly as if the URL had been skipped. -/
theorem c9_validate_failure_skips (env : Env) (start outDir url : String)
    (s : List (String × String)) (vs : List String) (rec : PageRecord)
    (tcs : List TestCase) (pom tcode e : String)
    (hgp : env.getPage url = some rec) (hh : rec.html ≠ "")
    (han : env.analyze rec.html url = .ok (.result tcs pom))
    (htcs : tcs ≠ []) (hpom : pom ≠ "")
    (hgen : env.generate_test_code (tcs.map normalizeTestCase) pom url = .ok tcode)
    (htc : tcode ≠ "")
    (hwf : env.writeFeedback (feedbackPath outDir start url)
        (orDefaultFeedback (validate_test_cases env.llmInvoke
          (tcs.map normalizeTestCase) pom)) = .error e) :
    processUrl env start outDir url s = s ∧
      processUrls env start outDir (url :: vs) s = processUrls env start outDir vs s := by
  have h1 : processUrl env start outDir url s = s := by
    simp [processUrl, hgp, hh, han, htcs, hpom, hgen, htc, hwf]
  exact ⟨h1, by simp [processUrls, List.foldl, h1]⟩

/-- Witness for C9 in an environment whose feedback write fails. -/
theorem c9_validate_failure_skips_witness :
    envC9.getPage "a" = some ⟨"a", "h", "t", "o"⟩ ∧
      envC9.analyze "h" "a" = .ok (.result [tcSample] "pom") ∧
      envC9.generate_test_code ([tcSample].map normalizeTestCase) "pom" "a" = .ok "code" ∧
      envC9.writeFeedback (feedbackPath "o" "s" "a")
        (orDefaultFeedback (validate_test_cases envC9.llmInvoke
          ([tcSample].map normalizeTestCase) "pom")) = .error "efs" ∧
      (processUrl envC9 "s" "o" "a" [] = [] ∧
        processUrls envC9 "s" "o" ["a", "b"] [] = processUrls envC9 "s" "o" ["b"] []) :=
  ⟨rfl, rfl, rfl, rfl,
    c9_validate_failure_skips envC9 "s" "o" "a" [] ["b"] ⟨"a", "h", "t", "o"⟩
      [tcSample] "pom" "code" "efs" rfl (by decide) rfl (by decide) (by decide)
      rfl (by decide) rfl⟩

lemma keys_upsert_self (m : List (String × String)) (k v : String) :
    k ∈ (upsert m k v).map Prod.fst := by
  unfold upsert
  split
  case isTrue h =>
    rcases List.any_eq_true.mp h with ⟨e, he, hek⟩
    have h2 : (k, v) ∈ m.map (fun e => if e.1 == k then (k, v) else e) :=
      List.mem_map.mpr ⟨e, he, by rw [if_pos hek]⟩
    exact List.mem_map.mpr ⟨(k, v), h2, rfl⟩
  case isFalse h => simp

lemma keys_upsert_mono (m : List (String × String)) (k v a : String)
    (h : a ∈ m.map Prod.fst) : a ∈ (upsert m k v).map Prod.fst := by
  unfold upsert
  split
  case isTrue hany =>
    rcases List.mem_map.mp h with ⟨p, hp, rfl⟩
    by_cases hpk : (p.1 == k) = true
    · have hk : p.1 = k := by simpa using hpk
      refine List.mem_map.mpr ⟨(k, v), List.mem_map.mpr ⟨p, hp, by rw [if_pos hpk]⟩, ?_⟩
      exact hk.symm
    · exact List.mem_map.mpr ⟨p, List.mem_map.mpr ⟨p, hp, by rw [if_neg hpk]⟩, rfl⟩
  case isFalse hany =>
    simp only [List.map_append, List.mem_append]
    exact Or.inl h

/-- Every run of the per-URL loop body either leaves the files map
unchanged (some stage failed) or registers exactly the two files of
the URL; the two cases are decided by urlSucceeds. -/
lemma processUrl_spec (env : Env) (start outDir url : String)
    (s : List (String × String)) :
    (urlSucceeds env start outDir url = false ∧
        processUrl env start outDir url s = s) ∨
      (urlSucceeds env start outDir url = true ∧ ∃ pom tcode,
        processUrl env start outDir url s =
          upsert (upsert s (pomPath start url) pom) (testPath start url) tcode) := by
  cases hgp : env.getPage url with
  | none => exact Or.inl ⟨by simp [urlSucceeds, hgp], by simp [processUrl, hgp]⟩
  | some rec =>
    by_cases hh : rec.html = ""
    · exact Or.inl ⟨by simp [urlSucceeds, hgp, hh], by simp [processUrl, hgp, hh]⟩
    · cases han : env.analyze rec.html url with
      | error e =>
        exact Or.inl ⟨by simp [urlSucceeds, hgp, hh, han],
          by simp [processUrl, hgp, hh, han]⟩
      | ok v =>
        cases v with
        | falsy =>
          exact Or.inl ⟨by simp [urlSucceeds, hgp, hh, han],
            by simp [processUrl, hgp, hh, han]⟩
        | errorDict msg =>
          exact Or.inl ⟨by simp [urlSucceeds, hgp, hh, han],
            by simp [processUrl, hgp, hh, han]⟩
        | result tcs pom =>
          by_cases hc : (tcs.isEmpty || pom = "") = true
          · exact Or.inl ⟨by simp [urlSucceeds, hgp, hh, han, hc],
              by simp [processUrl, hgp, hh, han, hc]⟩
          · cases hg : env.generate_test_code (tcs.map normalizeTestCase) pom url with
            | error e =>
              exact Or.inl ⟨by simp [urlSucceeds, hgp, hh, han, hc, hg],
                by simp [processUrl, hgp, hh, han, hc, hg]⟩
            | ok tcode =>
              by_cases ht : tcode = ""
              · exact Or.inl ⟨by simp [urlSucceeds, hgp, hh, han, hc, hg, ht],
                  by simp [processUrl, hgp, hh, han, hc, hg, ht]⟩
              · cases hw : env.writeFeedback (feedbackPath outDir start url)
                    (orDefaultFeedback (validate_test_cases env.llmInvoke
                      (tcs.map normalizeTestCase) pom)) with
                | error e =>
                  exact Or.inl ⟨by simp [urlSucceeds, hgp, hh, han, hc, hg, ht, hw],
                    by simp [processUrl, hgp, hh, han, hc, hg, ht, hw]⟩
                | ok u =>
                  refine Or.inr ⟨by simp [urlSucceeds, hgp, hh, han, hc, hg, ht, hw],
                    pom, tcode, ?_⟩
                  cases hgo : env.generate_outputs (tcs.map normalizeTestCase) outDir with
                  | error e2 => simp [processUrl, hgp, hh, han, hc, hg, ht, hw, hgo]
                  | ok u2 => simp [processUrl, hgp, hh, han, hc, hg, ht, hw, hgo]

lemma processUrl_keys_mono (env : Env) (start outDir url : String)
    (s : List (String × String)) (a : String) (h : a ∈ s.map Prod.fst) :
    a ∈ (processUrl env start outDir url s).map Prod.fst := by
  rcases processUrl_spec env start outDir url s with ⟨_, hc⟩ | ⟨_, pom, tcode, hc⟩
  · rw [hc]; exact h
  · rw [hc]; exact keys_upsert_mono _ _ _ _ (keys_upsert_mono _ _ _ _ h)

lemma processUrls_keys_mono (env : Env) (start outDir : String)
    (urls : List String) (s : List (String × String)) (a : String)
    (h : a ∈ s.map Prod.fst) :
    a ∈ (processUrls env start outDir urls s).map Prod.fst := by
  induction urls generalizing s with
  | nil => exact h
  | cons u rest ih =>
    exact ih _ (processUrl_keys_mono env start outDir u s a h)

/-- Claim C6: a stage failure for one URL is contained: the loop
continues into the later URLs, and any later URL whose stages all
succeed registers its two artifacts in the final map. -/
theorem c6_failure_isolated (env : Env) (start outDir x v : String)
    (us vs : List String) (s : List (String × String))
    (hx : urlSucceeds env start outDir x = false)
    (hv : v ∈ vs)
    (hvs : urlSucceeds env start outDir v = true) :
    processUrls env start outDir (us ++ x :: vs) s =
        processUrls env start outDir vs
          (processUrl env start outDir x (processUrls env start outDir us s)) ∧
      pomPath start v ∈ (processUrls env start outDir (us ++ x :: vs) s).map Prod.fst ∧
      testPath start v ∈ (processUrls env start outDir (us ++ x :: vs) s).map Prod.fst := by
  have hsplit : processUrls env start outDir (us ++ x :: vs) s =
      processUrls env start outDir vs
        (processUrl env start outDir x (processUrls env start outDir us s)) := by
    simp [processUrls, List.foldl_append]
  obtain ⟨l1, l2, rfl⟩ := List.append_of_mem hv
  have hsplit2 : ∀ s0, processUrls env start outDir (l1 ++ v :: l2) s0 =
      processUrls env start outDir l2
        (processUrl env start outDir v (processUrls env start outDir l1 s0)) := by
    intro s0
    simp [processUrls, List.foldl_append]
  rcases processUrl_spec env start outDir v
      (processUrls env start outDir l1
        (processUrl env start outDir x (processUrls env start outDir us s))) with
    ⟨hf, _⟩ | ⟨_, pom, tcode, heq⟩
  · rw [hvs] at hf; cases hf
  · refine ⟨hsplit, ?_, ?_⟩
    · rw [hsplit, hsplit2, heq]
      exact processUrls_keys_mono env start outDir l2 _ _
        (keys_upsert_mono _ _ _ _ (keys_upsert_self _ _ _))
    · rw [hsplit, hsplit2, heq]
      exact processUrls_keys_mono env start outDir l2 _ _ (keys_upsert_self _ _ _)

/-- Witness for C6: x has no page record, v succeeds after it. -/
theorem c6_failure_isolated_witness :
    urlSucceeds envC6 "s" "o" "x" = false ∧ ("v" ∈ (["v"] : List String)) ∧
      urlSucceeds envC6 "s" "o" "v" = true ∧
      (processUrls envC6 "s" "o" (["u"] ++ "x" :: ["v"]) [] =
          processUrls envC6 "s" "o" ["v"]
            (processUrl envC6 "s" "o" "x" (processUrls envC6 "s" "o" ["u"] [])) ∧
        pomPath "s" "v" ∈ (processUrls envC6 "s" "o" (["u"] ++ "x" :: ["v"]) []).map Prod.fst ∧
        testPath "s" "v" ∈ (processUrls envC6 "s" "o" (["u"] ++ "x" :: ["v"]) []).map Prod.fst) :=
  ⟨rfl, by decide, rfl,
    c6_failure_isolated envC6 "s" "o" "x" "v" ["u"] ["v"] [] rfl (by decide) rfl⟩

/-- Characterization of a run that returned normally: the publisher is
not invoked on an empty map, and is invoked exactly once, with its
outcome recorded, on a non-empty map. -/
lemma process_website_ok_spec (env : Env) (start : String) (fuel : Nat)
    (r : RunResult) (h : process_website env start fuel = some (.ok r)) :
    (r.files = [] → r.publishCalls = 0 ∧ r.publishOutcome = none) ∧
      (r.files ≠ [] → r.publishCalls = 1 ∧
        r.publishOutcome = some (env.integrate env.repoUrl r.files)) := by
  unfold process_website at h
  cases hcw : crawl_website env.crawl start fuel with
  | none => rw [hcw] at h; cases h
  | some crawled =>
    rw [hcw] at h
    simp only [Option.map_some', Option.some.injEq] at h
    split at h
    · cases h
      constructor
      · intro _; exact ⟨rfl, rfl⟩
      · intro hne; exact absurd rfl hne
    · split at h
      · cases h
      · split at h
        case isTrue hemp =>
          cases h
          constructor
          · intro _; exact ⟨rfl, rfl⟩
          · intro hne; exact absurd (List.isEmpty_iff.mp hemp) hne
        case isFalse hemp =>
          cases h
          constructor
          · intro he; exact absurd (List.isEmpty_iff.mpr he) hemp
          · intro _; exact ⟨rfl, rfl⟩

/-- A run that terminated with an error did so only because creating
the output directory failed: no other step of process_website
propagates an exception. -/
lemma process_website_error_spec (env : Env) (start : String) (fuel : Nat)
    (e : String) (h : process_website env start fuel = some (.error e)) :
    env.makedirs (outputDirOf start) = .error e := by
  unfold process_website at h
  cases hcw : crawl_website env.crawl start fuel with
  | none => rw [hcw] at h; cases h
  | some crawled =>
    rw [hcw] at h
    simp only [Option.map_some', Option.some.injEq] at h
    split at h
    · cases h
    · split at h
      case h_1 e2 hmk =>
        cases h
        exact hmk
      case h_2 =>
        split at h
        · cases h
        · cases h

/-- Claim C7: after all URLs are processed, the publisher is invoked
exactly once when the collected map is non-empty and zero times when
it is empty, in which case the run ends normally with no publish
outcome. -/
theorem c7_publish_once (env : Env) (start : String) (fuel : Nat) (r : RunResult)
    (h : process_website env start fuel = some (.ok r)) :
    (r.files = [] → r.publishCalls = 0 ∧ r.publishOutcome = none) ∧
      (r.files ≠ [] → r.publishCalls = 1 ∧
        r.publishOutcome = some (env.integrate env.repoUrl r.files)) :=
  process_website_ok_spec env start fuel r h

/-- Witness for C7 on the all-stages-succeed environment. -/
theorem c7_publish_once_witness :
    process_website envBase "s" 5 = some (.ok runBase) ∧
      ((runBase.files = [] → runBase.publishCalls = 0 ∧ runBase.publishOutcome = none) ∧
        (runBase.files ≠ [] → runBase.publishCalls = 1 ∧
          runBase.publishOutcome = some (envBase.integrate envBase.repoUrl runBase.files))) :=
  ⟨rfl, c7_publish_once envBase "s" 5 runBase rfl⟩

/-- Claim C8, counterexample: in envC8 the publish step fails with the
error boom, yet the run returns normally: the orchestrator catches the
exception, so the run does not terminate with that error. -/
theorem c8_publish_error_cex :
    envC8.integrate envC8.repoUrl runC8.files = .error "boom" ∧
      process_website envC8 "s" 5 = some (.ok runC8) ∧
      process_website envC8 "s" 5 ≠ some (.error "boom") := by
  refine ⟨rfl, rfl, ?_⟩
  intro h
  rw [show process_website envC8 "s" 5 = some (Except.ok runC8) from rfl] at h
  exact Except.noConfusion (Option.some.inj h)

/-- Claim C8, amended: a publish failure is caught by the
orchestrator: the publisher is invoked exactly once, its error is
recorded but not propagated, nothing is retried, and a run can only
terminate with an error when creating the output directory failed. -/
theorem c8_publish_error_amended (env env2 : Env) (start start2 : String)
    (fuel fuel2 : Nat) (r : RunResult) (e e2 : String)
    (hr : process_website env start fuel = some (.ok r))
    (hne : r.files ≠ [])
    (hint : env.integrate env.repoUrl r.files = .error e)
    (h2 : process_website env2 start2 fuel2 = some (.error e2)) :
    r.publishCalls = 1 ∧ r.publishOutcome = some (.error e) ∧
      env2.makedirs (outputDirOf start2) = .error e2 := by
  have hs := (process_website_ok_spec env start fuel r hr).2 hne
  refine ⟨hs.1, ?_, process_website_error_spec env2 start2 fuel2 e2 h2⟩
  rw [hs.2, hint]

/-- Witness for the amended C8: envC8 fails at publish and returns
normally; envMkFail fails at directory creation and terminates with
that error. -/
theorem c8_publish_error_witness :
    process_website envC8 "s" 5 = some (.ok runC8) ∧ runC8.files ≠ [] ∧
      envC8.integrate envC8.repoUrl runC8.files = .error "boom" ∧
      process_website envMkFail "s" 5 = some (.error "mkfail") ∧
      (runC8.publishCalls = 1 ∧ runC8.publishOutcome = some (.error "boom") ∧
        envMkFail.makedirs (outputDirOf "s") = .error "mkfail") :=
  ⟨rfl, by decide, rfl, rfl,
    c8_publish_error_amended envC8 envMkFail "s" "s" 5 5 runC8 "boom" "mkfail"
      rfl (by decide) rfl rfl⟩

lemma dedupFirstGo_congr : ∀ (l seen1 seen2 : List String),
    (∀ x ∈ l, seen1.contains x = seen2.contains x) →
    dedupFirstGo seen1 l = dedupFirstGo seen2 l := by
  intro l
  induction l with
  | nil => intro _ _ _; rfl
  | cons a l ih =>
    intro s1 s2 h
    have ha := h a (by simp)
    cases hc : s1.contains a with
    | true =>
      have hc2 : s2.contains a = true := by rw [← ha]; exact hc
      simp only [dedupFirstGo, hc, hc2, if_true]
      exact ih s1 s2 (fun x hx => h x (List.mem_cons_of_mem a hx))
    | false =>
      have hc2 : s2.contains a = false := by rw [← ha]; exact hc
      simp only [dedupFirstGo, hc, hc2, Bool.false_eq_true, if_false, List.cons.injEq,
        true_and]
      exact ih (a :: s1) (a :: s2) (fun x hx => by
        simp only [List.contains_cons, h x (List.mem_cons_of_mem a hx)])

lemma dedupFirstGo_cons_seen : ∀ (l seen : List String) (a : String),
    dedupFirstGo (a :: seen) l = dedupFirstGo seen (l.filter (fun x => x != a)) := by
  intro l
  induction l with
  | nil => intro _ _; rfl
  | cons b l ih =>
    intro seen a
    by_cases hba : b = a
    · subst hba
      have hcb : (b :: seen).contains b = true := by simp
      simp only [dedupFirstGo, hcb, if_true, List.filter_cons, bne_self_eq_false,
        Bool.false_eq_true, if_false]
      exact ih seen b
    · have hbeq : (b == a) = false := by simp [hba]
      have hbne : (b != a) = true := by simp [hba]
      cases hsb : seen.contains b with
      | true =>
        have hcb : (a :: seen).contains b = true := by
          have hm : b ∈ seen := by simpa using hsb
          simp [List.contains_cons, hm]
        simp only [dedupFirstGo, hcb, if_true, List.filter_cons, hbne, hsb]
        exact ih seen a
      | false =>
        have hcb : (a :: seen).contains b = false := by
          have hm : b ∉ seen := by simpa using hsb
          simp [List.contains_cons, hba, hm]
        have hswap : dedupFirstGo (b :: a :: seen) l = dedupFirstGo (a :: b :: seen) l :=
          dedupFirstGo_congr l _ _ (fun x hx => by
            simp only [List.contains_cons]
            cases x == b <;> cases x == a <;> simp)
        simp only [dedupFirstGo, hcb, Bool.false_eq_true, if_false, List.filter_cons,
          hbne, if_true, hsb, List.cons.injEq, true_and]
        rw [hswap]
        exact ih (b :: seen) a

lemma dedupFirst_cons (a : String) (l : List String) :
    dedupFirst (a :: l) = a :: dedupFirst (l.filter (fun x => x != a)) := by
  unfold dedupFirst
  have h0 : ([] : List String).contains a = false := rfl
  simp only [dedupFirstGo, h0, Bool.false_eq_true, if_false, List.cons.injEq, true_and]
  exact dedupFirstGo_cons_seen l [] a

lemma mem_dedupFirst_aux : ∀ (n : Nat) (l : List String), l.length ≤ n →
    ∀ x, (x ∈ dedupFirst l ↔ x ∈ l) := by
  intro n
  induction n with
  | zero =>
    intro l hl x
    have : l = [] := List.length_eq_zero.mp (Nat.le_zero.mp hl)
    subst this
    simp [dedupFirst, dedupFirstGo]
  | succ n ih =>
    intro l hl x
    cases l with
    | nil => simp [dedupFirst, dedupFirstGo]
    | cons a l2 =>
      rw [dedupFirst_cons]
      have hlen : (l2.filter (fun y => y != a)).length ≤ n := by
        have := List.length_filter_le (fun y => y != a) l2
        simp only [List.length_cons] at hl
        omega
      have ih2 := ih _ hlen x
      by_cases hxa : x = a
      · simp [hxa]
      · simp only [List.mem_cons, ih2, List.mem_filter, hxa, false_or]
        constructor
        · intro h; exact h.1
        · intro h; exact ⟨h, by simp [hxa]⟩

lemma mem_dedupFirst (l : List String) (x : String) : x ∈ dedupFirst l ↔ x ∈ l :=
  mem_dedupFirst_aux l.length l le_rfl x

lemma filter_cons_contains (a : String) (t : List String) : ∀ l2 : List String,
    (l2.filter (fun x => x != a)).filter
        (fun x => !((t.filter (fun y => y != a)).contains x)) =
      l2.filter (fun x => !((a :: t).contains x)) := by
  intro l2
  induction l2 with
  | nil => rfl
  | cons b l ih =>
    by_cases hba : b = a
    · subst hba
      have h1 : (b :: l).filter (fun x => x != b) = l.filter (fun x => x != b) := by
        simp [List.filter_cons]
      have h2 : (b :: l).filter (fun x => !((b :: t).contains x)) =
          l.filter (fun x => !((b :: t).contains x)) := by
        simp [List.filter_cons, List.contains_cons]
      rw [h1, h2, ih]
    · have hbne : (b != a) = true := by simp [hba]
      have hbeq : (b == a) = false := by simp [hba]
      have h1 : (b :: l).filter (fun x => x != a) = b :: l.filter (fun x => x != a) := by
        simp [List.filter_cons, hbne]
      cases htb : t.contains b with
      | true =>
        have hbm : b ∈ t := by simpa using htb
        have hmf : b ∈ t.filter (fun y => y != a) := List.mem_filter.mpr ⟨hbm, hbne⟩
        have hm3 : b ∈ a :: t := List.mem_cons_of_mem a hbm
        have h2 : (b :: l.filter (fun x => x != a)).filter
            (fun x => !((t.filter (fun y => y != a)).contains x)) =
            (l.filter (fun x => x != a)).filter
              (fun x => !((t.filter (fun y => y != a)).contains x)) :=
          List.filter_cons_of_neg (by simp [hmf])
        have h3 : (b :: l).filter (fun x => !((a :: t).contains x)) =
            l.filter (fun x => !((a :: t).contains x)) :=
          List.filter_cons_of_neg (by simp [hm3])
        rw [h1, h2, h3, ih]
      | false =>
        have hbm : b ∉ t := by simpa using htb
        have hmf : b ∉ t.filter (fun y => y != a) :=
          fun hm2 => hbm (List.mem_filter.mp hm2).1
        have hm3 : b ∉ a :: t := by
          intro hm4
          rcases List.mem_cons.mp hm4 with h5 | h5
          · exact hba h5
          · exact hbm h5
        have h2 : (b :: l.filter (fun x => x != a)).filter
            (fun x => !((t.filter (fun y => y != a)).contains x)) =
            b :: (l.filter (fun x => x != a)).filter
              (fun x => !((t.filter (fun y => y != a)).contains x)) :=
          List.filter_cons_of_pos (by simp [hmf])
        have h3 : (b :: l).filter (fun x => !((a :: t).contains x)) =
            b :: l.filter (fun x => !((a :: t).contains x)) :=
          List.filter_cons_of_pos (by simp [hm3])
        rw [h1, h2, h3, ih]

lemma dedupFirst_append_aux : ∀ (n : Nat) (l1 l2 : List String), l1.length ≤ n →
    dedupFirst (l1 ++ l2) =
      dedupFirst l1 ++ dedupFirst (l2.filter (fun x => !(l1.contains x))) := by
  intro n
  induction n with
  | zero =>
    intro l1 l2 hl
    have h0 : l1 = [] := List.length_eq_zero.mp (Nat.le_zero.mp hl)
    subst h0
    simp [dedupFirst, dedupFirstGo]
  | succ n ih =>
    intro l1 l2 hl
    cases l1 with
    | nil => simp [dedupFirst, dedupFirstGo]
    | cons a t =>
      have hlen : (t.filter (fun y => y != a)).length ≤ n := by
        have := List.length_filter_le (fun y => y != a) t
        simp only [List.length_cons] at hl
        omega
      rw [List.cons_append, dedupFirst_cons, List.filter_append,
        ih _ _ hlen, dedupFirst_cons, filter_cons_contains a t l2]
      simp [List.cons_append]

lemma dedupFirst_append (l1 l2 : List String) :
    dedupFirst (l1 ++ l2) =
      dedupFirst l1 ++ dedupFirst (l2.filter (fun x => !(l1.contains x))) :=
  dedupFirst_append_aux l1.length l1 l2 le_rfl

lemma projT_crawlStepT (env : CrawlEnv) (domain url : String)
    (rest visited crawled discovered fetched : List String) :
    projT (crawlStepT env domain url rest visited crawled discovered fetched) =
      crawlStep env domain url rest visited crawled := by
  by_cases h1 : url ∈ visited
  · simp [crawlStepT, crawlStep, projT, h1]
  · by_cases h2 : env.isCrawled url = true
    · simp [crawlStepT, crawlStep, projT, h1, h2]
    · by_cases h3 : (env.fetch url).success = true
      · simp [crawlStepT, crawlStep, projT, h1, h2, h3]
      · simp [crawlStepT, crawlStep, projT, h1, h2, h3]

lemma crawlLoopT_proj (env : CrawlEnv) (domain : String) :
    ∀ (fuel : Nat) (s : CrawlStateT),
      (crawlLoopT env domain fuel s).map projT = crawlLoop env domain fuel (projT s) := by
  intro fuel
  induction fuel with
  | zero =>
    intro s
    have hq : (projT s).toCrawl = s.toCrawl := rfl
    simp only [crawlLoopT, crawlLoop, hq]
    split
    · simp [projT]
    · simp
  | succ n ih =>
    intro s
    cases hq : s.toCrawl with
    | nil =>
      have hq2 : (projT s).toCrawl = [] := hq
      simp [crawlLoopT, crawlLoop, hq, hq2]
    | cons url rest =>
      have hq2 : (projT s).toCrawl = url :: rest := hq
      simp only [crawlLoopT, crawlLoop, hq, hq2]
      rw [ih]
      have hv : (projT s).visited = s.visited := rfl
      have hc : (projT s).crawledPages = s.crawled := rfl
      rw [hv, hc, projT_crawlStepT]

lemma crawl_website_final (env : CrawlEnv) (start : String) (fuel : Nat) :
    crawl_website env start fuel =
      (crawlFinalT env start fuel).map (fun t => t.crawled) := by
  unfold crawl_website crawlFinalT
  have hp : projT (initT start) = ⟨[start], [], []⟩ := rfl
  rw [← hp, ← crawlLoopT_proj]
  cases crawlLoopT env (env.netloc start) fuel (initT start) with
  | none => rfl
  | some t => rfl

lemma crawlLoopT_isCrawled (env : CrawlEnv) (domain : String) :
    ∀ (fuel : Nat) (s t : CrawlStateT),
      crawlLoopT env domain fuel s = some t →
      (∀ x ∈ s.fetched, env.isCrawled x = false) →
      (∀ x ∈ s.crawled, env.isCrawled x = false) →
      (∀ x ∈ t.fetched, env.isCrawled x = false) ∧
        (∀ x ∈ t.crawled, env.isCrawled x = false) := by
  intro fuel
  induction fuel with
  | zero =>
    intro s t h hf hc
    simp only [crawlLoopT] at h
    split at h
    · cases h; exact ⟨hf, hc⟩
    · cases h
  | succ n ih =>
    intro s t h hf hc
    cases s with
    | mk q v c d f =>
      cases hq : q with
      | nil =>
        subst hq
        simp only [crawlLoopT] at h
        cases h
        exact ⟨hf, hc⟩
      | cons url rest =>
        subst hq
        simp only [crawlLoopT] at h
        by_cases h1 : url ∈ v
        · have hstep : crawlStepT env domain url rest v c d f = ⟨rest, v, c, d, f⟩ := by
            simp [crawlStepT, h1]
          exact ih _ t h (by rw [hstep]; exact hf) (by rw [hstep]; exact hc)
        · by_cases h2 : env.isCrawled url = true
          · have hstep : crawlStepT env domain url rest v c d f =
                ⟨rest, url :: v, c, d, f⟩ := by
              simp [crawlStepT, h1, h2]
            exact ih _ t h (by rw [hstep]; exact hf) (by rw [hstep]; exact hc)
          · have h2f : env.isCrawled url = false := by
              cases h4 : env.isCrawled url
              · rfl
              · exact absurd h4 h2
            have hext : ∀ g : List String, (∀ x ∈ g, env.isCrawled x = false) →
                ∀ x ∈ g ++ [url], env.isCrawled x = false := by
              intro g hg x hx
              simp only [List.mem_append, List.mem_singleton] at hx
              rcases hx with hx | hx
              · exact hg x hx
              · subst hx; exact h2f
            by_cases h3 : (env.fetch url).success = true
            · have hstep : crawlStepT env domain url rest v c d f =
                  ⟨rest ++ newLinks env domain (url :: v) (env.fetch url).links,
                    url :: v, c ++ [url],
                    d ++ firstNew d (newLinks env domain (url :: v) (env.fetch url).links),
                    f ++ [url]⟩ := by
                simp [crawlStepT, h1, h2, h3]
              exact ih _ t h (by rw [hstep]; exact hext f hf)
                (by rw [hstep]; exact hext c hc)
            · have hstep : crawlStepT env domain url rest v c d f =
                  ⟨rest, url :: v, c, d, f ++ [url]⟩ := by
                simp [crawlStepT, h1, h2, h3]
              exact ih _ t h (by rw [hstep]; exact hext f hf) (by rw [hstep]; exact hc)

lemma contains_eq_of_mem_iff {l1 l2 : List String} (x : String)
    (h : x ∈ l1 ↔ x ∈ l2) : l1.contains x = l2.contains x := by
  cases hc : l2.contains x with
  | true =>
    have hm2 : x ∈ l2 := by simpa using hc
    have hm1 : x ∈ l1 := h.mpr hm2
    simpa using hm1
  | false =>
    have hm2 : x ∉ l2 := by simpa using hc
    have hm1 : x ∉ l1 := fun hm => hm2 (h.mp hm)
    simpa using hm1

lemma filter_not_contains_cons (url : String) (visited : List String) :
    ∀ rest : List String,
      rest.filter (fun x => !((url :: visited).contains x)) =
        (rest.filter (fun x => !(visited.contains x))).filter (fun x => x != url) := by
  intro rest
  induction rest with
  | nil => rfl
  | cons b l ih =>
    by_cases hbu : b = url
    · subst hbu
      have e1 : (b :: l).filter (fun x => !((b :: visited).contains x)) =
          l.filter (fun x => !((b :: visited).contains x)) :=
        List.filter_cons_of_neg (by simp)
      by_cases hbv : b ∈ visited
      · have e2 : (b :: l).filter (fun x => !(visited.contains x)) =
            l.filter (fun x => !(visited.contains x)) :=
          List.filter_cons_of_neg (by simp [hbv])
        rw [e1, e2, ih]
      · have e2 : (b :: l).filter (fun x => !(visited.contains x)) =
            b :: l.filter (fun x => !(visited.contains x)) :=
          List.filter_cons_of_pos (by simp [hbv])
        have e3 : (b :: l.filter (fun x => !(visited.contains x))).filter
              (fun x => x != b) =
            (l.filter (fun x => !(visited.contains x))).filter (fun x => x != b) :=
          List.filter_cons_of_neg (by simp)
        rw [e1, e2, e3, ih]
    · by_cases hbv : b ∈ visited
      · have hm : b ∈ url :: visited := List.mem_cons_of_mem url hbv
        have e1 : (b :: l).filter (fun x => !((url :: visited).contains x)) =
            l.filter (fun x => !((url :: visited).contains x)) :=
          List.filter_cons_of_neg (by simp [hm])
        have e2 : (b :: l).filter (fun x => !(visited.contains x)) =
            l.filter (fun x => !(visited.contains x)) :=
          List.filter_cons_of_neg (by simp [hbv])
        rw [e1, e2, ih]
      · have hnb : b ∉ url :: visited := by
          intro hm
          rcases List.mem_cons.mp hm with h5 | h5
          · exact hbu h5
          · exact hbv h5
        have e1 : (b :: l).filter (fun x => !((url :: visited).contains x)) =
            b :: l.filter (fun x => !((url :: visited).contains x)) :=
          List.filter_cons_of_pos (by simp [hnb])
        have e2 : (b :: l).filter (fun x => !(visited.contains x)) =
            b :: l.filter (fun x => !(visited.contains x)) :=
          List.filter_cons_of_pos (by simp [hbv])
        have e3 : (b :: l.filter (fun x => !(visited.contains x))).filter
              (fun x => x != url) =
            b :: (l.filter (fun x => !(visited.contains x))).filter
              (fun x => x != url) :=
          List.filter_cons_of_pos (by simp [hbu])
        rw [e1, e2, e3, ih]

lemma crawlStepT_inv (env : CrawlEnv) (start url : String)
    (rest visited crawled discovered fetched : List String)
    (hic : ∀ u, env.isCrawled u = false)
    (hs : ∀ u, (env.fetch u).success = true)
    (h : CrawlInv env start ⟨url :: rest, visited, crawled, discovered, fetched⟩) :
    CrawlInv env start
      (crawlStepT env (env.netloc start) url rest visited crawled discovered fetched) := by
  by_cases hv : url ∈ visited
  · have hstep : crawlStepT env (env.netloc start) url rest visited crawled
        discovered fetched = ⟨rest, visited, crawled, discovered, fetched⟩ := by
      simp [crawlStepT, hv]
    rw [hstep]
    refine ⟨h.visited_iff, h.nodup, ?_, ?_, h.crawled_reach, ?_, ?_⟩
    · have hd : discovered = crawled ++
          dedupFirst ((url :: rest).filter (fun x => !(visited.contains x))) := h.disc
      have hfe : (url :: rest).filter (fun x => !(visited.contains x)) =
          rest.filter (fun x => !(visited.contains x)) :=
        List.filter_cons_of_neg (by simp [hv])
      rw [hfe] at hd
      exact hd
    · intro x hx
      exact h.queue_reach x (List.mem_cons_of_mem url hx)
    · intro x hxc y hy hyd
      rcases h.closure x hxc y hy hyd with hyv | hyq
      · exact Or.inl hyv
      · rcases List.mem_cons.mp hyq with rfl | hyr
        · exact Or.inl hv
        · exact Or.inr hyr
    · rcases h.start_mem with hsc | hsq
      · exact Or.inl hsc
      · rcases List.mem_cons.mp hsq with rfl | hsr
        · exact Or.inl ((h.visited_iff start).mp hv)
        · exact Or.inr hsr
  · have hstep : crawlStepT env (env.netloc start) url rest visited crawled
        discovered fetched =
        ⟨rest ++ newLinks env (env.netloc start) (url :: visited) (env.fetch url).links,
          url :: visited, crawled ++ [url],
          discovered ++ firstNew discovered
            (newLinks env (env.netloc start) (url :: visited) (env.fetch url).links),
          fetched ++ [url]⟩ := by
      simp [crawlStepT, hv, hic url, hs url]
    rw [hstep]
    have hncr : url ∉ crawled := fun hcm => hv ((h.visited_iff url).mpr hcm)
    have hru : Reachable env start url := h.queue_reach url (List.mem_cons_self url rest)
    refine ⟨?_, ?_, ?_, ?_, ?_, ?_, ?_⟩
    · intro x
      simp only [List.mem_cons, List.mem_append, List.mem_singleton, h.visited_iff x]
      tauto
    · refine List.Nodup.append h.nodup (List.nodup_singleton url) ?_
      intro a ha hau
      simp only [List.mem_singleton] at hau
      subst hau
      exact hncr ha
    · -- discovery trace equation
      have hqf : (url :: rest).filter (fun x => !(visited.contains x)) =
          url :: rest.filter (fun x => !(visited.contains x)) :=
        List.filter_cons_of_pos (by simp [hv])
      have hdisc : discovered = crawled ++
          (url :: dedupFirst ((rest.filter (fun x => !(visited.contains x))).filter
            (fun x => x != url))) := by
        have hd : discovered = crawled ++
            dedupFirst ((url :: rest).filter (fun x => !(visited.contains x))) := h.disc
        rw [hqf, dedupFirst_cons] at hd
        exact hd
      have hLself : (newLinks env (env.netloc start) (url :: visited)
            (env.fetch url).links).filter (fun x => !((url :: visited).contains x)) =
          newLinks env (env.netloc start) (url :: visited) (env.fetch url).links :=
        List.filter_eq_self.mpr (by
          intro x hx
          have hc := (List.mem_filter.mp hx).2
          simp only [Bool.and_eq_true] at hc
          exact hc.2)
      have hmemL : ∀ x ∈ newLinks env (env.netloc start) (url :: visited)
          (env.fetch url).links, x ∉ url :: visited := by
        intro x hx
        have hc := (List.mem_filter.mp hx).2
        simp only [Bool.and_eq_true] at hc
        simpa using hc.2
      have hcongr : (newLinks env (env.netloc start) (url :: visited)
            (env.fetch url).links).filter (fun x => !(discovered.contains x)) =
          (newLinks env (env.netloc start) (url :: visited)
            (env.fetch url).links).filter (fun x =>
            !(((rest.filter (fun y => !(visited.contains y))).filter
              (fun y => y != url)).contains x)) := by
        refine List.filter_congr ?_
        intro x hx
        have hnx : x ∉ url :: visited := hmemL x hx
        have hxu : x ≠ url := fun he => hnx (he ▸ List.mem_cons_self url visited)
        have hxv : x ∉ visited := fun hm => hnx (List.mem_cons_of_mem url hm)
        have hxc : x ∉ crawled := fun hm => hxv ((h.visited_iff x).mpr hm)
        have hiff : x ∈ discovered ↔
            x ∈ (rest.filter (fun y => !(visited.contains y))).filter
              (fun y => y != url) := by
          rw [hdisc]
          simp only [List.mem_append, List.mem_cons,
            mem_dedupFirst]
          constructor
          · intro hcase
            rcases hcase with hcase | hcase
            · exact absurd hcase hxc
            · rcases hcase with hcase | hcase
              · exact absurd hcase hxu
              · exact hcase
          · intro hcase
            exact Or.inr (Or.inr hcase)
        have := contains_eq_of_mem_iff x hiff
        rw [this]
      calc discovered ++ firstNew discovered
            (newLinks env (env.netloc start) (url :: visited) (env.fetch url).links)
          = (crawled ++ (url :: dedupFirst ((rest.filter
              (fun x => !(visited.contains x))).filter (fun x => x != url)))) ++
            dedupFirst ((newLinks env (env.netloc start) (url :: visited)
              (env.fetch url).links).filter (fun x =>
              !(((rest.filter (fun y => !(visited.contains y))).filter
                (fun y => y != url)).contains x))) := by
            rw [← hdisc]
            unfold firstNew
            rw [hcongr]
        _ = (crawled ++ [url]) ++
            (dedupFirst ((rest.filter (fun x => !(visited.contains x))).filter
              (fun x => x != url)) ++
            dedupFirst ((newLinks env (env.netloc start) (url :: visited)
              (env.fetch url).links).filter (fun x =>
              !(((rest.filter (fun y => !(visited.contains y))).filter
                (fun y => y != url)).contains x)))) := by
            simp [List.append_assoc]
        _ = (crawled ++ [url]) ++
            dedupFirst ((rest.filter (fun x => !(visited.contains x))).filter
              (fun x => x != url) ++
              newLinks env (env.netloc start) (url :: visited) (env.fetch url).links) := by
            rw [dedupFirst_append]
        _ = (crawled ++ [url]) ++
            dedupFirst ((rest ++ newLinks env (env.netloc start) (url :: visited)
              (env.fetch url).links).filter
              (fun x => !((url :: visited).contains x))) := by
            rw [List.filter_append, hLself, filter_not_contains_cons]
    · intro x hx
      rcases List.mem_append.mp hx with hx | hx
      · exact h.queue_reach x (List.mem_cons_of_mem url hx)
      · rcases List.mem_filter.mp hx with ⟨hxl, hcond⟩
        have hnet : env.netloc x = env.netloc start := by
          simp only [Bool.and_eq_true] at hcond
          simpa using hcond.1
        exact Reachable.step hru hxl hnet
    · intro x hx
      rcases List.mem_append.mp hx with hx | hx
      · exact h.crawled_reach x hx
      · simp only [List.mem_singleton] at hx
        subst hx
        exact hru
    · intro x hx y hy hyd
      rcases List.mem_append.mp hx with hx | hx
      · rcases h.closure x hx y hy hyd with hyv | hyq
        · exact Or.inl (List.mem_cons_of_mem url hyv)
        · rcases List.mem_cons.mp hyq with hyq2 | hyr
          · exact Or.inl (by rw [hyq2]; exact List.mem_cons_self url visited)
          · exact Or.inr (List.mem_append.mpr (Or.inl hyr))
      · simp only [List.mem_singleton] at hx
        have hy2 : y ∈ (env.fetch url).links := hx ▸ hy
        by_cases hyv : y ∈ url :: visited
        · exact Or.inl hyv
        · have hyu : ¬ y = url := fun he => hyv (he ▸ List.mem_cons_self url visited)
          have hyv2 : y ∉ visited := fun hm => hyv (List.mem_cons_of_mem url hm)
          refine Or.inr (List.mem_append.mpr (Or.inr ?_))
          refine List.mem_filter.mpr ⟨hy2, ?_⟩
          simp [hyd, hyu, hyv2]
    · rcases h.start_mem with hsc | hsq
      · exact Or.inl (List.mem_append.mpr (Or.inl hsc))
      · rcases List.mem_cons.mp hsq with rfl | hsr
        · exact Or.inl (List.mem_append.mpr (Or.inr (by simp)))
        · exact Or.inr (List.mem_append.mpr (Or.inl hsr))

lemma crawlLoopT_inv (env : CrawlEnv) (start : String)
    (hic : ∀ u, env.isCrawled u = false)
    (hs : ∀ u, (env.fetch u).success = true) :
    ∀ (fuel : Nat) (s t : CrawlStateT), CrawlInv env start s →
      crawlLoopT env (env.netloc start) fuel s = some t →
      CrawlInv env start t ∧ t.toCrawl = [] := by
  intro fuel
  induction fuel with
  | zero =>
    intro s t hinv h
    simp only [crawlLoopT] at h
    split at h
    case isTrue hemp =>
      cases h
      exact ⟨hinv, List.isEmpty_iff.mp hemp⟩
    case isFalse => cases h
  | succ n ih =>
    intro s t hinv h
    cases s with
    | mk q v c d f =>
      cases hq : q with
      | nil =>
        subst hq
        simp only [crawlLoopT] at h
        cases h
        exact ⟨hinv, rfl⟩
      | cons url rest =>
        subst hq
        simp only [crawlLoopT] at h
        exact ih _ t (crawlStepT_inv env start url rest v c d f hic hs hinv) h

lemma crawlInv_init (env : CrawlEnv) (start : String) :
    CrawlInv env start (initT start) := by
  refine ⟨?_, ?_, ?_, ?_, ?_, ?_, ?_⟩
  · intro x; simp [initT]
  · simp [initT]
  · rfl
  · intro x hx
    simp only [initT, List.mem_singleton] at hx
    subst hx
    exact Reachable.refl
  · intro x hx
    simp [initT] at hx
  · intro x hx
    simp [initT] at hx
  · exact Or.inr (by simp [initT])

/-- Claim C1: with the page store reporting nothing crawled and every
fetch succeeding, a completed crawl fetches each URL at most once, its
page list is exactly the set of URLs reachable from the start URL
through same-domain links, and the pages appear in first-in-first-out
discovery order (the order in which URLs are first appended to the
frontier). -/
theorem c1_crawl_bfs_exact (env : CrawlEnv) (start : String) (fuel : Nat)
    (pages : List String)
    (hic : ∀ u, env.isCrawled u = false)
    (hs : ∀ u, (env.fetch u).success = true)
    (h : crawl_website env start fuel = some pages) :
    pages.Nodup ∧ (∀ u, u ∈ pages ↔ Reachable env start u) ∧
      discoveryOrder env start fuel = some pages := by
  rw [crawl_website_final] at h
  cases hft : crawlFinalT env start fuel with
  | none => rw [hft] at h; cases h
  | some t =>
    rw [hft] at h
    simp only [Option.map_some', Option.some.injEq] at h
    subst h
    have hloop : crawlLoopT env (env.netloc start) fuel (initT start) = some t := hft
    obtain ⟨hinv, hempty⟩ :=
      crawlLoopT_inv env start hic hs fuel (initT start) t (crawlInv_init env start) hloop
    refine ⟨hinv.nodup, ?_, ?_⟩
    · intro u
      constructor
      · exact hinv.crawled_reach u
      · intro hr
        induction hr with
        | refl =>
          rcases hinv.start_mem with hc | hqm
          · exact hc
          · rw [hempty] at hqm; cases hqm
        | step hx hy hd ihx =>
          rcases hinv.closure _ ihx _ hy hd with hvm | hqm
          · exact (hinv.visited_iff _).mp hvm
          · rw [hempty] at hqm; cases hqm
    · unfold discoveryOrder
      rw [hloop]
      simp only [Option.map_some', Option.some.injEq]
      have hd : t.discovered = t.crawled ++
          dedupFirst (t.toCrawl.filter (fun x => !(t.visited.contains x))) := hinv.disc
      rw [hempty] at hd
      simpa [dedupFirst, dedupFirstGo] using hd

/-- Witness for C1 on the two-page site. -/
theorem c1_crawl_bfs_exact_witness :
    (∀ u, cenvA.isCrawled u = false) ∧ (∀ u, (cenvA.fetch u).success = true) ∧
      crawl_website cenvA "s" 5 = some ["s", "a"] ∧
      ((["s", "a"] : List String).Nodup ∧
        (∀ u, u ∈ (["s", "a"] : List String) ↔ Reachable cenvA "s" u) ∧
        discoveryOrder cenvA "s" 5 = some ["s", "a"]) :=
  ⟨fun _ => rfl, fun _ => rfl, rfl,
    c1_crawl_bfs_exact cenvA "s" 5 ["s", "a"] (fun _ => rfl) (fun _ => rfl) rfl⟩

/-- Claim C3, counterexample: a is linked from s and already recorded
in the page store; the crawl pops a, does not fetch it (correct), but
also leaves it out of the returned page list, so the run's pipeline
(which got the non-empty list [s]) never processes the stored content
of a. -/
theorem c3_skip_crawled_cex :
    cenvC3.isCrawled "a" = true ∧
      crawlFinalT cenvC3 "s" 5 = some ⟨[], ["a", "s"], ["s"], ["s", "a"], ["s"]⟩ ∧
      process_website envC3 "s" 5 = some (.ok ⟨["s"], [], 0, none⟩) :=
  ⟨rfl, rfl, rfl⟩

/-- Claim C3, amended: a URL the page store reports as crawled is
never fetched in the run and never enters the crawled page list; since
the pipeline URL list of a run whose crawl returned at least one page
is exactly that list, the stored content of the skipped URL is NOT
submitted to the pipeline of that run (it can only be processed by the
fallback path of a run whose crawl returned no pages at all). -/
theorem c3_skip_crawled_amended (env : Env) (start u : String) (fuel : Nat)
    (t : CrawlStateT) (crawled : List String)
    (hfin : crawlFinalT env.crawl start fuel = some t)
    (hic : env.crawl.isCrawled u = true)
    (hcw : crawl_website env.crawl start fuel = some crawled)
    (hne : crawled ≠ [])
    (hmk : env.makedirs (outputDirOf start) = .ok ()) :
    u ∉ t.fetched ∧ u ∉ t.crawled ∧
      ∃ r, process_website env start fuel = some (.ok r) ∧
        r.pipelineUrls = crawled ∧ u ∉ r.pipelineUrls := by
  have hinv := crawlLoopT_isCrawled env.crawl (env.crawl.netloc start) fuel
    (initT start) t hfin
    (by intro x hx; simp [initT] at hx)
    (by intro x hx; simp [initT] at hx)
  have hf1 : u ∉ t.fetched := by
    intro hm
    have h2 := hinv.1 u hm
    rw [h2] at hic
    simp at hic
  have hf2 : u ∉ t.crawled := by
    intro hm
    have h2 := hinv.2 u hm
    rw [h2] at hic
    simp at hic
  have hceq : crawled = t.crawled := by
    have h2 := crawl_website_final env.crawl start fuel
    rw [hfin, hcw] at h2
    simpa using h2
  have hpu : u ∉ crawled := by rw [hceq]; exact hf2
  have hie : crawled.isEmpty = false := by
    cases crawled
    · exact absurd rfl hne
    · rfl
  refine ⟨hf1, hf2, ?_⟩
  unfold process_website
  rw [hcw]
  simp only [Option.map_some']
  rw [if_neg (by simp [hie])]
  simp only []
  rw [hmk]
  cases hfe : (processUrls env start (outputDirOf start) crawled []).isEmpty with
  | true =>
    refine ⟨⟨crawled, processUrls env start (outputDirOf start) crawled [], 0, none⟩,
      ?_, rfl, hpu⟩
    simp
  | false =>
    refine ⟨⟨crawled, processUrls env start (outputDirOf start) crawled [], 1,
      some (env.integrate env.repoUrl
        (processUrls env start (outputDirOf start) crawled []))⟩, ?_, rfl, hpu⟩
    simp

/-- Witness for the amended C3 on the site whose page a is already
stored. -/
theorem c3_skip_crawled_witness :
    crawlFinalT envC3.crawl "s" 5 =
        some (CrawlStateT.mk [] ["a", "s"] ["s"] ["s", "a"] ["s"]) ∧
      envC3.crawl.isCrawled "a" = true ∧
      crawl_website envC3.crawl "s" 5 = some ["s"] ∧
      (["s"] : List String) ≠ [] ∧
      envC3.makedirs (outputDirOf "s") = .ok () ∧
      (("a" : String) ∉ (CrawlStateT.mk [] ["a", "s"] ["s"] ["s", "a"] ["s"]).fetched ∧
        ("a" : String) ∉ (CrawlStateT.mk [] ["a", "s"] ["s"] ["s", "a"] ["s"]).crawled ∧
        ∃ r, process_website envC3 "s" 5 = some (.ok r) ∧
          r.pipelineUrls = ["s"] ∧ ("a" : String) ∉ r.pipelineUrls) :=
  ⟨rfl, rfl, rfl, by decide, rfl,
    c3_skip_crawled_amended envC3 "s" "a" 5
      (CrawlStateT.mk [] ["a", "s"] ["s"] ["s", "a"] ["s"]) ["s"]
      rfl rfl rfl (by decide) rfl⟩

end TG
